import Mathlib

/-!
Verification of the makemit accelerometer telemetry pipeline.

The definitions below are a shallow embedding of the C sources:
  - src/accelerometer/main/main.c  (sensor decode, sample buffer, upload)
  - src/led_test/main/main.cpp     (scalar fetch, pulse task)
Machine integers are modelled as Nat / Int with explicit reductions modulo
2 ^ 16 where the C code casts; the float computations are modelled over ℚ
(the spec states the physical formulas over exact arithmetic and asks for
approximate agreement, so rational arithmetic is the faithful shallow model);
fallible bus and transport operations take an Option input, with none
standing for a failed transaction.
-/

namespace Makemit

/-- Gravity constant, main.c line 30: `#define GRAVITY_CONSTANT 9.80665f`. -/
def GRAVITY_CONSTANT : ℚ := 980665 / 100000

/-- Reinterpretation of the low 16 bits of an integer as a signed 16-bit
value, modelling the C cast `(int16_t)` in main.c lines 178-180. -/
def toInt16 (n : Nat) : Int :=
  if n % 65536 < 32768 then (n % 65536 : Int) else (n % 65536 : Int) - 65536

/-- The 6-byte frame read from the data-out registers
(`uint8_t raw_data[6]` in `mma8451_read_accel`), byte order
X-MSB, X-LSB, Y-MSB, Y-LSB, Z-MSB, Z-LSB. -/
structure RawFrame where
  b0 : Nat
  b1 : Nat
  b2 : Nat
  b3 : Nat
  b4 : Nat
  b5 : Nat

/-- Decode of one frame, from `mma8451_read_accel` main.c lines 178-187:
combine each big-endian byte pair with `(msb << 8) | lsb`, cast to
`int16_t`, divide by 16384.0 and multiply by the gravity constant. -/
def decodeSample (r : RawFrame) : ℚ × ℚ × ℚ :=
  let ix := toInt16 ((r.b0 <<< 8) ||| r.b1)
  let iy := toInt16 ((r.b2 <<< 8) ||| r.b3)
  let iz := toInt16 ((r.b4 <<< 8) ||| r.b5)
  ((ix : ℚ) / 16384 * GRAVITY_CONSTANT,
   (iy : ℚ) / 16384 * GRAVITY_CONSTANT,
   (iz : ℚ) / 16384 * GRAVITY_CONSTANT)

/-- `mma8451_read_accel` main.c lines 166-190: the bus transaction may fail
(`ret != ESP_OK`), in which case no outputs are produced; on success the
frame is decoded.  The input `none` stands for a failed bus transaction. -/
def mma8451_read_accel (t : Option RawFrame) : Option (ℚ × ℚ × ℚ) :=
  t.map decodeSample

/-- Decoding policy (a) of spec section 4.2: arithmetic right shift of the
signed 16-bit value by 2 (floor division by 4), then division by the
native sensitivity 4096 LSB per g, then the gravity constant. -/
def pol_a (raw : Int) : ℚ := ((Int.fdiv raw 4 : Int) : ℚ) / 4096 * GRAVITY_CONSTANT

/-- Decoding policy (b) of spec section 4.2 and of `mma8451_read_accel`
main.c lines 185-187: no shift, division by the pre-scaled sensitivity
16384 LSB per g, then the gravity constant. -/
def pol_b (raw : Int) : ℚ := (raw : ℚ) / 16384 * GRAVITY_CONSTANT

/-- The per-axis scaling used by `process_data`, main.c lines 36-38:
`(x_raw / 4096.0f) * GRAVITY_CONSTANT` with no shift. -/
def process_data_scale (raw : Int) : ℚ := (raw : ℚ) / 4096 * GRAVITY_CONSTANT

/-- The four portrait or landscape states of the status decode in
`process_data`, plus the `default` branch label of the C switch. -/
inductive PLState where
  | portraitUp
  | portraitDown
  | landscapeRight
  | landscapeLeft
  | unknown
  deriving DecidableEq

/-- The back or front flag of the status decode in `process_data`. -/
inductive Face where
  | front
  | back
  deriving DecidableEq

/-- Orientation decode from `process_data`, main.c lines 40-62:
`pl_bits = (pl_status >> 1) & 0x03` selects the state by the C switch,
and bit 0 selects back (set) or front (clear). -/
def decodeOrientation (pl_status : Nat) : PLState × Face :=
  let pl_bits := (pl_status >>> 1) &&& 0x03
  let pl_state :=
    if pl_bits = 0 then PLState.portraitUp
    else if pl_bits = 1 then PLState.portraitDown
    else if pl_bits = 2 then PLState.landscapeRight
    else if pl_bits = 3 then PLState.landscapeLeft
    else PLState.unknown
  let side := if pl_status &&& 0x01 ≠ 0 then Face.back else Face.front
  (pl_state, side)

/-- C1: the raw frame [0x10,0x00,0x20,0x00,0x30,0x00], decoded by
`mma8451_read_accel` exactly as the code does (combine big-endian pairs
into signed 16-bit integers, divide by the code's sensitivity 16384,
multiply by 9.80665), yields X, Y, Z within 1/10000 of the claimed
2.4517, 4.9033 and 7.3550 m/s^2. -/
theorem claim_C1_frame_decode :
    mma8451_read_accel (some ⟨0x10, 0x00, 0x20, 0x00, 0x30, 0x00⟩) =
      some (980665 / 400000, 980665 / 200000, 2941995 / 400000) ∧
    |(980665 / 400000 : ℚ) - 24517 / 10000| < 1 / 10000 ∧
    |(980665 / 200000 : ℚ) - 49033 / 10000| < 1 / 10000 ∧
    |(2941995 / 400000 : ℚ) - 73550 / 10000| < 1 / 10000 := by
  refine ⟨?_, by rw [abs_sub_lt_iff]; constructor <;> norm_num,
    by rw [abs_sub_lt_iff]; constructor <;> norm_num,
    by rw [abs_sub_lt_iff]; constructor <;> norm_num⟩
  have h1 : ((0x10 <<< 8) ||| 0x00 : Nat) = 4096 := by decide
  have h2 : ((0x20 <<< 8) ||| 0x00 : Nat) = 8192 := by decide
  have h3 : ((0x30 <<< 8) ||| 0x00 : Nat) = 12288 := by decide
  have hx : decodeSample ⟨0x10, 0x00, 0x20, 0x00, 0x30, 0x00⟩ =
      (980665 / 400000, 980665 / 200000, 2941995 / 400000) := by
    unfold decodeSample
    rw [h1, h2, h3]
    norm_num [toInt16, GRAVITY_CONSTANT, Prod.mk.injEq]
  simp [mma8451_read_accel, hx]

/-- C2 counterexample: at raw value 1, policy (a) (arithmetic shift right
by 2, then divide by 4096) and policy (b) (divide by 16384) give different
physical values, and the scaling used by `process_data` (divide by 4096
with no shift) agrees with neither policy; so the claim that the two
policies agree on every 16-bit raw value and that one of them is applied
on every decoding path is false. -/
theorem claim_C2_counterexample :
    pol_a 1 ≠ pol_b 1 ∧
    process_data_scale 1 ≠ pol_a 1 ∧
    process_data_scale 1 ≠ pol_b 1 := by
  have ha : pol_a 1 = 0 := by
    have : Int.fdiv 1 4 = 0 := by decide
    simp [pol_a, this]
  have hb : pol_b 1 = 980665 / 1638400000 := by
    rw [pol_b, GRAVITY_CONSTANT]; norm_num
  have hc : process_data_scale 1 = 980665 / 409600000 := by
    rw [process_data_scale, GRAVITY_CONSTANT]; norm_num
  refine ⟨?_, ?_, ?_⟩
  · rw [ha, hb]; norm_num
  · rw [ha, hc]; norm_num
  · rw [hb, hc]; norm_num

/-- C2 (amended): policies (a) and (b) agree on every raw value that is a
multiple of 4 (every left-justified 14-bit reading); `mma8451_read_accel`
applies policy (b) uniformly to all three axes; the `process_data` path
instead scales by 1/4096 with no shift, which is exactly 4 times policy
(b) and is therefore neither policy. -/
theorem claim_C2_policies (raw : Int) (h : (4 : Int) ∣ raw) :
    pol_a raw = pol_b raw ∧
    (∀ f : RawFrame,
      mma8451_read_accel (some f) =
        some (pol_b (toInt16 ((f.b0 <<< 8) ||| f.b1)),
              pol_b (toInt16 ((f.b2 <<< 8) ||| f.b3)),
              pol_b (toInt16 ((f.b4 <<< 8) ||| f.b5)))) ∧
    process_data_scale raw = 4 * pol_b raw := by
  obtain ⟨k, rfl⟩ := h
  refine ⟨?_, fun f => rfl, ?_⟩
  · have : Int.fdiv (4 * k) 4 = k := Int.mul_fdiv_cancel_left k (by norm_num)
    rw [pol_a, pol_b, this]
    push_cast
    ring
  · rw [process_data_scale, pol_b]
    push_cast
    ring

/-- C2 witness: the amended statement evaluated at raw value 8. -/
theorem claim_C2_policies_witness :
    pol_a 8 = pol_b 8 ∧ process_data_scale 8 = 4 * pol_b 8 :=
  ⟨(claim_C2_policies 8 ⟨2, by norm_num⟩).1,
   (claim_C2_policies 8 ⟨2, by norm_num⟩).2.2⟩

set_option maxRecDepth 8192 in
/-- C3: for every status byte, `decodeOrientation` only looks at the low
3 bits (bits 2:1 select the position, bit 0 the face flag), every one of
the 8 combinations of those bits decodes exactly as the table says, and
no input reaches the undefined default branch. -/
theorem claim_C3_orientation (s : Nat) (h : s < 256) :
    decodeOrientation s = decodeOrientation (s % 8) ∧
    (decodeOrientation s).2 = (if s % 2 = 0 then Face.front else Face.back) ∧
    (decodeOrientation s).1 ≠ PLState.unknown ∧
    decodeOrientation 0 = (PLState.portraitUp, Face.front) ∧
    decodeOrientation 1 = (PLState.portraitUp, Face.back) ∧
    decodeOrientation 2 = (PLState.portraitDown, Face.front) ∧
    decodeOrientation 3 = (PLState.portraitDown, Face.back) ∧
    decodeOrientation 4 = (PLState.landscapeRight, Face.front) ∧
    decodeOrientation 5 = (PLState.landscapeRight, Face.back) ∧
    decodeOrientation 6 = (PLState.landscapeLeft, Face.front) ∧
    decodeOrientation 7 = (PLState.landscapeLeft, Face.back) := by
  have hmain : ∀ t, t < 256 → decodeOrientation t = decodeOrientation (t % 8) ∧
      ((decodeOrientation t).2 = if t % 2 = 0 then Face.front else Face.back) ∧
      (decodeOrientation t).1 ≠ PLState.unknown := by decide
  obtain ⟨h1, h2, h3⟩ := hmain s h
  exact ⟨h1, h2, h3, by decide, by decide, by decide, by decide, by decide,
    by decide, by decide, by decide⟩

/-- C3 witness: the statement evaluated at the status byte 0x85, whose
low three bits are 0b101. -/
theorem claim_C3_orientation_witness :
    decodeOrientation 0x85 = decodeOrientation (0x85 % 8) ∧
    (decodeOrientation 0x85).1 ≠ PLState.unknown ∧
    decodeOrientation 5 = (PLState.landscapeRight, Face.back) :=
  ⟨(claim_C3_orientation 0x85 (by decide)).1,
   (claim_C3_orientation 0x85 (by decide)).2.2.1,
   (claim_C3_orientation 0x85 (by decide)).2.2.2.2.2.2.2.2.1⟩

/-- `#define MAX_SAMPLES 150`, main.c line 163. -/
def MAX_SAMPLES : Nat := 150

/-- The sample buffer together with its write cursor:
`float accel_buffer[MAX_SAMPLES]` (main.c line 164) plus the local
`sample_count` of `collect_and_send_data`.  `data i` is the content of
cell `i`; `count` is the number of cells filled so far in this cycle. -/
structure AccelBuf where
  data : Nat → ℚ
  count : Nat

/-- One store of `collect_and_send_data`:
`accel_buffer[sample_count] = v; sample_count++;` (main.c lines 204-209).
The store is unconditional: this code has no capacity check and no error
result. -/
def bufferStore (b : AccelBuf) (v : ℚ) : AccelBuf :=
  ⟨fun i => if i = b.count then v else b.data i, b.count + 1⟩

/-- The values appended so far in this cycle: cells 0 .. count-1. -/
def written (b : AccelBuf) : List ℚ := (List.range b.count).map b.data

/-- Loop state of `collect_and_send_data`: the buffer plus a ghost counter
of ticks dropped to bus errors (the code skips such a tick silently; the
counter only makes the drop count of the spec statable). -/
structure LoopState where
  buf : AccelBuf
  dropped : Nat

/-- One iteration body of the acquisition loop (main.c lines 196-213): on
a successful read append x, y, z in that order; on a bus error append
nothing. -/
def collectStep (s : LoopState) (t : Option RawFrame) : LoopState :=
  match mma8451_read_accel t with
  | some (x, y, z) =>
      ⟨bufferStore (bufferStore (bufferStore s.buf x) y) z, s.dropped⟩
  | none => ⟨s.buf, s.dropped + 1⟩

/-- The `while (sample_count < MAX_SAMPLES)` loop of
`collect_and_send_data`: the guard is tested before every tick.  The tick
list is the finite prefix of the bus behaviour under consideration; if it
runs out with the guard still true, the loop is simply still running at
the returned state. -/
def collectRun : LoopState → List (Option RawFrame) → LoopState
  | s, [] => s
  | s, t :: ts =>
      if s.buf.count < MAX_SAMPLES then collectRun (collectStep s t) ts else s

/-- The batch handed to `post_acceleration_list(accel_buffer, MAX_SAMPLES)`
(main.c line 217): the first MAX_SAMPLES cells of the buffer. -/
def sentList (b : AccelBuf) : List ℚ := (List.range MAX_SAMPLES).map b.data

/-- One call of `collect_and_send_data` (main.c lines 192-218) starting
from buffer contents `d`; the local `sample_count` starts at 0.  If the
loop has exited (the guard failed) the batch is posted and returned here;
otherwise the loop is still running and nothing has been sent. -/
def collect_and_send_data (d : Nat → ℚ) (ts : List (Option RawFrame)) :
    Option (List ℚ) :=
  let fin := collectRun ⟨⟨d, 0⟩, 0⟩ ts
  if MAX_SAMPLES ≤ fin.buf.count then some (sentList fin.buf) else none

/-- The `while (1)` loop of `app_main` (main.c lines 299-307): repeated
calls of `collect_and_send_data`.  The buffer cells persist across calls
(the array is global) while each call starts a fresh cursor.  Returns the
batches posted, one per completed cycle. -/
def runCycles : (Nat → ℚ) → List (List (Option RawFrame)) → List (List ℚ)
  | _, [] => []
  | d, ts :: tss =>
      let fin := collectRun ⟨⟨d, 0⟩, 0⟩ ts
      if MAX_SAMPLES ≤ fin.buf.count then
        sentList fin.buf :: runCycles fin.buf.data tss
      else []

/-- Number of successful bus transactions in a tick list. -/
def successCount (ts : List (Option RawFrame)) : Nat :=
  ts.countP fun t => t.isSome

/-- A bus that fails every third transaction: ticks 3, 6, 9, ...
(0-based indices 2, 5, 8, ...) fail, the others deliver a frame. -/
def failEveryThird (N : Nat) : List (Option RawFrame) :=
  (List.range N).map fun i => if i % 3 = 2 then none else some ⟨0, 0, 0, 0, 0, 0⟩

theorem bufferStore_count (b : AccelBuf) (v : ℚ) :
    (bufferStore b v).count = b.count + 1 := rfl

theorem bufferStore_data (b : AccelBuf) (v : ℚ) :
    (bufferStore b v).data = fun i => if i = b.count then v else b.data i := rfl

theorem written_bufferStore (b : AccelBuf) (v : ℚ) :
    written (bufferStore b v) = written b ++ [v] := by
  unfold written
  rw [bufferStore_count, bufferStore_data, List.range_succ, List.map_append]
  congr 1
  · exact List.map_congr_left fun i hi => by
      have hne : i ≠ b.count := Nat.ne_of_lt (List.mem_range.mp hi)
      simp [hne]
  · simp

theorem length_written (b : AccelBuf) : (written b).length = b.count := by
  simp [written]

theorem collectStep_none (s : LoopState) :
    collectStep s none = ⟨s.buf, s.dropped + 1⟩ := rfl

theorem collectStep_some (s : LoopState) (f : RawFrame) :
    collectStep s (some f) =
      ⟨bufferStore (bufferStore (bufferStore s.buf (decodeSample f).1)
          (decodeSample f).2.1) (decodeSample f).2.2, s.dropped⟩ := by
  rcases hd : decodeSample f with ⟨x, y, z⟩
  simp [collectStep, mma8451_read_accel, hd]

theorem collectStep_some_count (s : LoopState) (f : RawFrame) :
    (collectStep s (some f)).buf.count = s.buf.count + 3 := by
  rw [collectStep_some]
  simp [bufferStore_count]

theorem written_collectStep_some (s : LoopState) (f : RawFrame) :
    written (collectStep s (some f)).buf =
      written s.buf ++
        [(decodeSample f).1, (decodeSample f).2.1, (decodeSample f).2.2] := by
  rw [collectStep_some]
  simp [written_bufferStore]

theorem collectRun_nil (s : LoopState) : collectRun s [] = s := rfl

theorem collectRun_cons (s : LoopState) (t : Option RawFrame)
    (ts : List (Option RawFrame)) :
    collectRun s (t :: ts) =
      if s.buf.count < MAX_SAMPLES then collectRun (collectStep s t) ts else s :=
  rfl

theorem collectRun_frozen (s : LoopState) (ts : List (Option RawFrame))
    (h : MAX_SAMPLES ≤ s.buf.count) : collectRun s ts = s := by
  cases ts with
  | nil => rfl
  | cons t ts => rw [collectRun_cons, if_neg (by omega)]

theorem collectStep_none_count (s : LoopState) :
    (collectStep s none).buf.count = s.buf.count := by
  rw [collectStep_none]

theorem collectStep_none_dropped (s : LoopState) :
    (collectStep s none).dropped = s.dropped + 1 := by
  rw [collectStep_none]

theorem collectStep_some_dropped (s : LoopState) (f : RawFrame) :
    (collectStep s (some f)).dropped = s.dropped := by
  rw [collectStep_some]

theorem collectRun_inv (ts : List (Option RawFrame)) :
    ∀ s : LoopState, 3 ∣ s.buf.count → s.buf.count ≤ MAX_SAMPLES →
      3 ∣ (collectRun s ts).buf.count ∧
        (collectRun s ts).buf.count ≤ MAX_SAMPLES := by
  induction ts with
  | nil => exact fun s h3 hle => ⟨h3, hle⟩
  | cons t ts ih =>
      intro s h3 hle
      rw [collectRun_cons]
      by_cases hg : s.buf.count < MAX_SAMPLES
      · rw [if_pos hg]
        cases t with
        | none =>
            have h1 := collectStep_none_count s
            exact ih _ (by omega) (by omega)
        | some f =>
            have h1 := collectStep_some_count s f
            have hM : MAX_SAMPLES = 150 := rfl
            exact ih _ (by omega) (by omega)
      · rw [if_neg hg]
        exact ⟨h3, hle⟩

theorem collectRun_full (ts : List (Option RawFrame)) :
    ∀ s : LoopState, 3 ∣ s.buf.count → s.buf.count ≤ MAX_SAMPLES →
      MAX_SAMPLES ≤ s.buf.count + 3 * successCount ts →
      (collectRun s ts).buf.count = MAX_SAMPLES := by
  induction ts with
  | nil =>
      intro s _ hle henough
      rw [collectRun_nil]
      simp only [successCount, List.countP_nil] at henough
      omega
  | cons t ts ih =>
      intro s h3 hle henough
      have hcnt : successCount (t :: ts) =
          successCount ts + if t.isSome then 1 else 0 :=
        List.countP_cons _ _ _
      rw [collectRun_cons]
      by_cases hg : s.buf.count < MAX_SAMPLES
      · rw [if_pos hg]
        cases t with
        | none =>
            have h1 := collectStep_none_count s
            simp only [Option.isSome_none, Bool.false_eq_true, if_false] at hcnt
            exact ih _ (by omega) (by omega) (by omega)
        | some f =>
            have h1 := collectStep_some_count s f
            have hM : MAX_SAMPLES = 150 := rfl
            simp only [Option.isSome_some, if_true] at hcnt
            exact ih _ (by omega) (by omega) (by omega)
      · rw [if_neg hg]
        omega

theorem collectRun_dropped (ts : List (Option RawFrame)) :
    ∀ s : LoopState, (collectRun s ts).buf.count < MAX_SAMPLES →
      (collectRun s ts).dropped =
        s.dropped + ts.countP fun t => t.isNone := by
  induction ts with
  | nil => intro s _; simp [collectRun_nil]
  | cons t ts ih =>
      intro s hlt
      have hcnt : (t :: ts).countP (fun t => t.isNone) =
          ts.countP (fun t => t.isNone) + if t.isNone then 1 else 0 :=
        List.countP_cons _ _ _
      rw [collectRun_cons] at hlt ⊢
      by_cases hg : s.buf.count < MAX_SAMPLES
      · rw [if_pos hg] at hlt ⊢
        rw [ih _ hlt]
        cases t with
        | none =>
            rw [collectStep_none_dropped]
            simp only [Option.isNone_none, if_true] at hcnt
            omega
        | some f =>
            rw [collectStep_some_dropped]
            simp only [Option.isNone_some, Bool.false_eq_true, if_false] at hcnt
            omega
      · rw [if_neg hg] at hlt
        omega


theorem countNone_failEveryThird (N : Nat) :
    (failEveryThird N).countP (fun t => t.isNone) = N / 3 := by
  induction N with
  | zero => rfl
  | succ n ih =>
      unfold failEveryThird at ih ⊢
      rw [List.range_succ, List.map_append, List.countP_append, ih]
      by_cases h : n % 3 = 2 <;> simp [h, List.countP_cons] <;> omega

/-- C4 counterexample: the code's append primitive has no capacity check
and no BufferOverflow result.  Applied to a buffer that already holds 150
entries it does not fail: it stores the value in cell 150 and moves the
cursor to 151, so a 151st append, were it ever attempted, would exceed
capacity instead of being rejected. -/
theorem claim_C4_counterexample :
    (bufferStore ⟨fun _ => 0, 150⟩ 1).count = 151 ∧
    (bufferStore ⟨fun _ => 0, 150⟩ 1).data 150 = 1 := by
  constructor
  · rfl
  · rw [bufferStore_data]
    simp

/-- C4 (amended): the buffer never holds more than 150 entries, because
the acquisition loop tests `sample_count < MAX_SAMPLES` before each tick
and 150 is a multiple of the append stride 3, so an append past capacity
is never attempted (once the count reaches 150 the loop makes no further
step); the code contains no BufferOverflow rejection — its store
primitive succeeds unconditionally. -/
theorem claim_C4_capacity (d : Nat → ℚ) (ts : List (Option RawFrame))
    (s : LoopState) (h : MAX_SAMPLES ≤ s.buf.count) :
    (collectRun ⟨⟨d, 0⟩, 0⟩ ts).buf.count ≤ 150 ∧
    collectRun s ts = s ∧
    (∀ b v, (bufferStore b v).count = b.count + 1) := by
  refine ⟨?_, collectRun_frozen s ts h, fun b v => rfl⟩
  exact (collectRun_inv ts ⟨⟨d, 0⟩, 0⟩ ⟨0, rfl⟩ (by norm_num)).2

/-- C4 witness: the amended statement at a frozen full state and an
empty-start run of 51 ticks. -/
theorem claim_C4_capacity_witness :
    (collectRun ⟨⟨fun _ => (0:ℚ), 0⟩, 0⟩
        (List.replicate 51 (some ⟨0, 0, 0, 0, 0, 0⟩))).buf.count ≤ 150 ∧
    collectRun ⟨⟨fun _ => (0:ℚ), 150⟩, 0⟩ [none] = ⟨⟨fun _ => (0:ℚ), 150⟩, 0⟩ ∧
    (∀ b v, (bufferStore b v).count = b.count + 1) :=
  claim_C4_capacity (fun _ => 0) (List.replicate 51 (some ⟨0, 0, 0, 0, 0, 0⟩))
    ⟨⟨fun _ => (0:ℚ), 150⟩, 0⟩ (by decide)

/-- C5: a batch is posted only when the loop has exited, the count at
that moment is exactly 150 (never more, by the stride-3 invariant; never
fewer, by the loop guard), every posted batch has exactly 150 values, and
the posted batch consists precisely of the values appended since the
cursor was reset to 0 at the start of the call. -/
theorem claim_C5_full_batches (d : Nat → ℚ) (ts : List (Option RawFrame))
    (tss : List (List (Option RawFrame))) (b : List ℚ) :
    (MAX_SAMPLES ≤ (collectRun ⟨⟨d, 0⟩, 0⟩ ts).buf.count →
      (collectRun ⟨⟨d, 0⟩, 0⟩ ts).buf.count = 150) ∧
    (collect_and_send_data d ts = some b →
      b.length = 150 ∧ b = written (collectRun ⟨⟨d, 0⟩, 0⟩ ts).buf) ∧
    (b ∈ runCycles d tss → b.length = 150) := by
  have hcap : ∀ d : Nat → ℚ, (collectRun ⟨⟨d, 0⟩, 0⟩ ts).buf.count ≤ MAX_SAMPLES :=
    fun d => (collectRun_inv ts ⟨⟨d, 0⟩, 0⟩ ⟨0, rfl⟩ (by norm_num)).2
  have hexact : ∀ d : Nat → ℚ, MAX_SAMPLES ≤ (collectRun ⟨⟨d, 0⟩, 0⟩ ts).buf.count →
      (collectRun ⟨⟨d, 0⟩, 0⟩ ts).buf.count = 150 := by
    intro d h
    have := hcap d
    have hM : MAX_SAMPLES = 150 := rfl
    omega
  refine ⟨hexact d, ?_, ?_⟩
  · intro hsend
    unfold collect_and_send_data at hsend
    by_cases hfull : MAX_SAMPLES ≤ (collectRun ⟨⟨d, 0⟩, 0⟩ ts).buf.count
    · rw [if_pos hfull] at hsend
      obtain rfl : sentList (collectRun ⟨⟨d, 0⟩, 0⟩ ts).buf = b :=
        Option.some.inj hsend
      constructor
      · simp [sentList, MAX_SAMPLES]
      · unfold sentList written
        rw [hexact d hfull]
        rfl
    · rw [if_neg hfull] at hsend
      exact absurd hsend (by simp)
  · clear hcap hexact
    induction tss generalizing d with
    | nil => intro hmem; simp [runCycles] at hmem
    | cons ts1 tss ih =>
        intro hmem
        unfold runCycles at hmem
        by_cases hfull :
            MAX_SAMPLES ≤ (collectRun ⟨⟨d, 0⟩, 0⟩ ts1).buf.count
        · rw [if_pos hfull] at hmem
          rcases List.mem_cons.mp hmem with hb | hb
          · subst hb
            simp [sentList, MAX_SAMPLES]
          · exact ih _ hb
        · rw [if_neg hfull] at hmem
          simp at hmem

/-- C5 witness: a cycle of 50 successful ticks from an all-zero buffer
posts a batch of exactly 150 values. -/
theorem claim_C5_full_batches_witness :
    (collectRun ⟨⟨fun _ => (0:ℚ), 0⟩, 0⟩
        (List.replicate 50 (some ⟨0, 0, 0, 0, 0, 0⟩))).buf.count = 150 :=
  (claim_C5_full_batches (fun _ => 0)
      (List.replicate 50 (some ⟨0, 0, 0, 0, 0, 0⟩)) [] []).1 (by decide)

set_option maxRecDepth 20000 in
/-- C6: a bus-error tick appends nothing (the buffer is unchanged, only
the ghost drop counter moves), a successful tick appends exactly 3 values
and drops nothing, a bus failing every third transaction produces exactly
floor(N/3) failures among N ticks, the loop drop counter counts exactly
the error ticks it processed, and concretely over N ≤ 74 ticks of such a
bus (one acquisition cycle) exactly floor(N/3) ticks are dropped. -/
theorem claim_C6_bus_errors (N : Nat) (hN : N ≤ 74) :
    (∀ s : LoopState, collectStep s none = ⟨s.buf, s.dropped + 1⟩) ∧
    (∀ (s : LoopState) (f : RawFrame),
      (collectStep s (some f)).buf.count = s.buf.count + 3 ∧
      (collectStep s (some f)).dropped = s.dropped) ∧
    (failEveryThird N).countP (fun t => t.isNone) = N / 3 ∧
    (∀ (s : LoopState) (ts : List (Option RawFrame)),
      (collectRun s ts).buf.count < MAX_SAMPLES →
      (collectRun s ts).dropped = s.dropped + ts.countP fun t => t.isNone) ∧
    (collectRun ⟨⟨fun _ => 0, 0⟩, 0⟩ (failEveryThird N)).dropped = N / 3 := by
  have hdec : ∀ M, M ≤ 74 →
      (collectRun ⟨⟨fun _ => (0:ℚ), 0⟩, 0⟩ (failEveryThird M)).dropped = M / 3 := by
    decide
  exact ⟨collectStep_none,
    fun s f => ⟨collectStep_some_count s f, collectStep_some_dropped s f⟩,
    countNone_failEveryThird N,
    fun s ts => collectRun_dropped ts s,
    hdec N hN⟩

/-- C6 witness: the statement at N = 9 ticks: exactly 3 are dropped. -/
theorem claim_C6_bus_errors_witness :
    (failEveryThird 9).countP (fun t => t.isNone) = 9 / 3 ∧
    (collectRun ⟨⟨fun _ => 0, 0⟩, 0⟩ (failEveryThird 9)).dropped = 9 / 3 :=
  ⟨(claim_C6_bus_errors 9 (by decide)).2.2.1,
   (claim_C6_bus_errors 9 (by decide)).2.2.2.2⟩

/-- C10: from any state whose count is a multiple of 3 and at most 150
(as holds at the start of every loop iteration, the initial count being
0), the loop preserves that invariant; a successful tick extends the
written prefix by exactly the decoded x, y, z at the three consecutive
cells count, count+1, count+2; any such write index is strictly below
150 whenever the guard held; and as soon as the bus delivers enough
successes the loop exits with count exactly 150. -/
theorem claim_C10_loop_invariant (s : LoopState) (ts : List (Option RawFrame))
    (h3 : 3 ∣ s.buf.count) (hle : s.buf.count ≤ MAX_SAMPLES) :
    (3 ∣ (collectRun s ts).buf.count ∧ (collectRun s ts).buf.count ≤ 150) ∧
    (∀ f : RawFrame,
      written (collectStep s (some f)).buf =
        written s.buf ++
          [(decodeSample f).1, (decodeSample f).2.1, (decodeSample f).2.2] ∧
      (collectStep s (some f)).buf.data s.buf.count = (decodeSample f).1 ∧
      (collectStep s (some f)).buf.data (s.buf.count + 1) = (decodeSample f).2.1 ∧
      (collectStep s (some f)).buf.data (s.buf.count + 2) = (decodeSample f).2.2) ∧
    (s.buf.count < MAX_SAMPLES → s.buf.count + 2 < 150) ∧
    (MAX_SAMPLES ≤ s.buf.count + 3 * successCount ts →
      (collectRun s ts).buf.count = 150) := by
  have hM : MAX_SAMPLES = 150 := rfl
  refine ⟨collectRun_inv ts s h3 hle, ?_, by omega,
    fun he => collectRun_full ts s h3 hle he⟩
  intro f
  refine ⟨written_collectStep_some s f, ?_, ?_, ?_⟩ <;>
    (simp [collectStep_some, bufferStore]; try (intros; omega))

/-- C10 witness: the statement at the empty initial state with 50
successful ticks: the invariant holds and the loop exits at exactly
150. -/
theorem claim_C10_loop_invariant_witness :
    (3 ∣ (collectRun ⟨⟨fun _ => (0:ℚ), 0⟩, 0⟩
        (List.replicate 50 (some ⟨1, 0, 2, 0, 3, 0⟩))).buf.count ∧
      (collectRun ⟨⟨fun _ => (0:ℚ), 0⟩, 0⟩
        (List.replicate 50 (some ⟨1, 0, 2, 0, 3, 0⟩))).buf.count ≤ 150) ∧
    (MAX_SAMPLES ≤ 0 + 3 * successCount (List.replicate 50 (some ⟨1, 0, 2, 0, 3, 0⟩)) →
      (collectRun ⟨⟨fun _ => (0:ℚ), 0⟩, 0⟩
        (List.replicate 50 (some ⟨1, 0, 2, 0, 3, 0⟩))).buf.count = 150) ∧
    (collectRun ⟨⟨fun _ => (0:ℚ), 0⟩, 0⟩
        (List.replicate 50 (some ⟨1, 0, 2, 0, 3, 0⟩))).buf.count = 150 := by
  have h := claim_C10_loop_invariant ⟨⟨fun _ => (0:ℚ), 0⟩, 0⟩
    (List.replicate 50 (some ⟨1, 0, 2, 0, 3, 0⟩)) ⟨0, rfl⟩ (by decide)
  exact ⟨h.1, h.2.2.2, h.2.2.2 (by decide)⟩

/-- One register-level bus operation of the startup path. -/
inductive BusOp where
  | readReg (reg : Nat)
  | writeReg (reg val : Nat)
  deriving DecidableEq

/-- `#define REG_WHO_AM_I 0x0D`, main.c line 24. -/
def REG_WHO_AM_I : Nat := 0x0D

/-- The configuration writes of `app_main` (main.c lines 286-297), in
program order: control register to standby, orientation engine enable,
debounce, trip angles, range, control register back to active. -/
def configWrites : List BusOp :=
  [BusOp.writeReg 0x2A 0x00,
   BusOp.writeReg 0x11 0x40,
   BusOp.writeReg 0x12 0x05,
   BusOp.writeReg 0x13 0x44,
   BusOp.writeReg 0x0E 0x00,
   BusOp.writeReg 0x2A 0x01]

/-- The identity-check portion of `app_main` (main.c lines 274-307), as a
function of the byte found in the identity register: the trace of device
register operations performed, and whether the sampling loop is reached.
Any value other than 0x1A makes `app_main` return right after the
identity read, before any `write_reg` call. -/
def app_main_startup (who_am_i : Nat) : List BusOp × Bool :=
  if who_am_i = 0x1A then (BusOp.readReg REG_WHO_AM_I :: configWrites, true)
  else ([BusOp.readReg REG_WHO_AM_I], false)

/-- C7: the identity register is read exactly once at startup; the value
0x1A leads to the configuration writes and then the sampling loop; any
other value aborts with no register write ever issued and sampling never
reached. -/
theorem claim_C7_identity_check (w : Nat) :
    (app_main_startup w).1.count (BusOp.readReg REG_WHO_AM_I) = 1 ∧
    (w = 0x1A →
      app_main_startup w = (BusOp.readReg REG_WHO_AM_I :: configWrites, true)) ∧
    (w ≠ 0x1A →
      app_main_startup w = ([BusOp.readReg REG_WHO_AM_I], false) ∧
      ∀ r v, BusOp.writeReg r v ∉ (app_main_startup w).1) := by
  by_cases h : w = 0x1A
  · subst h
    refine ⟨by decide, fun _ => rfl, fun hne => absurd rfl hne⟩
  · have happ : app_main_startup w = ([BusOp.readReg REG_WHO_AM_I], false) := by
      simp only [app_main_startup, if_neg h]
    refine ⟨?_, fun he => absurd he h, fun _ => ⟨happ, ?_⟩⟩
    · rw [happ]
      decide
    · intro r v
      rw [happ]
      simp

/-- C7 witness: the statement at the matching byte 0x1A and at the
mismatching byte 0x00. -/
theorem claim_C7_identity_check_witness :
    app_main_startup 0x1A = (BusOp.readReg REG_WHO_AM_I :: configWrites, true) ∧
    (app_main_startup 0x00 = ([BusOp.readReg REG_WHO_AM_I], false) ∧
      ∀ r v, BusOp.writeReg r v ∉ (app_main_startup 0x00).1) :=
  ⟨(claim_C7_identity_check 0x1A).2.1 rfl,
   (claim_C7_identity_check 0x00).2.2 (by decide)⟩

/-- C `atoi` on the accumulated response body (main.cpp line 76),
restricted to the shapes that matter here: an optional leading minus
sign followed by leading decimal digits; a body with no leading digits
parses to 0. -/
def atoiDigits : Nat → List Char → Nat
  | acc, c :: cs => if c.isDigit then atoiDigits (10 * acc + (c.toNat - 48)) cs else acc
  | acc, [] => acc

/-- `atoi` as used by `make_temp_request`. -/
def atoi (s : String) : Int :=
  match s.data with
  | '-' :: cs => -(atoiDigits 0 cs : Int)
  | cs => (atoiDigits 0 cs : Int)

/-- `make_temp_request` (main.cpp lines 61-82): `result` starts at 0; only
when `esp_http_client_perform` succeeds is the body parsed with `atoi`
and assigned; on transport failure the function returns the initial 0.
`none` stands for a failed transport. -/
def make_temp_request (response : Option String) : Int :=
  match response with
  | some body => atoi body
  | none => 0

/-- The beat-period computation of `led_pulse_task` (main.cpp line 176):
`int ms_per_beat = (60000 / pulse_bpm);` right after `pulse_bpm =
make_temp_request();`.  C integer division is undefined for divisor 0,
so the division is modelled as fallible. -/
def ms_per_beat (bpm : Int) : Option Int :=
  if bpm = 0 then none else some (60000 / bpm)

/-- C9: the claim that every value returned by the scalar fetch makes the
divisor of `60000 / bpm` nonzero is false: on transport failure the fetch
returns 0 (and an empty or non-numeric body also parses to 0), and the
beat-period division is then undefined.  This is the code bug behind
claim C9. -/
theorem claim_C9_division_by_zero :
    make_temp_request none = 0 ∧
    ms_per_beat (make_temp_request none) = none ∧
    make_temp_request (some "") = 0 ∧
    ms_per_beat (make_temp_request (some "")) = none := by
  refine ⟨rfl, ?_, rfl, ?_⟩ <;> simp [ms_per_beat, make_temp_request, atoi, atoiDigits]

/-- One decimal digit as a character. -/
def digitChar (d : Nat) : Char := Char.ofNat (48 + d)

/-- Decimal digits of the second argument, most significant first (the
integral part of the `%.2f` conversion).  Structural on a fuel argument
so that it evaluates by kernel reduction; `natDigs` supplies enough
fuel. -/
def natDigsAux : Nat → Nat → List Char
  | 0, _ => []
  | fuel + 1, n =>
      if n < 10 then [digitChar n]
      else natDigsAux fuel (n / 10) ++ [digitChar (n % 10)]

/-- Decimal digits of `n`, most significant first. -/
def natDigs (n : Nat) : List Char := natDigsAux (n + 1) n

/-- The two fractional digits of the `%.2f` conversion, for a fractional
part of `k` hundredths. -/
def frac2 (k : Nat) : List Char := [digitChar (k / 10), digitChar (k % 10)]

/-- The `%.2f` conversion of `sprintf` (main.c line 134): the value
rounded to the nearest hundredth, written as all integral digits, a
point, and exactly two fractional digits, with a leading minus sign when
the rounded value is negative. -/
def fmtF2 (v : ℚ) : String :=
  let n : Int := round (v * 100)
  let m : Nat := n.natAbs
  (if n < 0 then "-" else "") ++
    String.mk (natDigs (m / 100)) ++ "." ++ String.mk (frac2 (m % 100))

/-- The item loop of `post_acceleration_list` (main.c lines 132-137):
each value is written with `%.2f` followed by a comma unless it is the
last one. -/
def jsonItems : List ℚ → String
  | [] => ""
  | [v] => fmtF2 v
  | v :: vs => fmtF2 v ++ "," ++ jsonItems vs

/-- The POST body built by `post_acceleration_list` (main.c lines
131-138): the sprintf prologue (which has one space after the colon),
the items, and the closing brackets. -/
def post_body (vals : List ℚ) : String :=
  "\x7b\"data\": [" ++ jsonItems vals ++ "]\x7d"

/-- The numeric value of a digit character, when it is one. -/
def digit? (c : Char) : Option Nat :=
  if c.isDigit then some (c.toNat - 48) else none

/-- Parse a nonempty all-digit character list as a decimal natural. -/
def parseNatDigits (cs : List Char) : Option Nat :=
  if cs ≠ [] ∧ cs.all Char.isDigit then
    some (cs.foldl (fun a c => 10 * a + (c.toNat - 48)) 0)
  else none

/-- Parse the unsigned fixed-point shape digits-point-two-digits. -/
def parseAbs (cs : List Char) : Option ℚ :=
  match cs.dropWhile (fun c => c != '.') with
  | '.' :: d1 :: d2 :: [] =>
      match parseNatDigits (cs.takeWhile (fun c => c != '.')),
          digit? d1, digit? d2 with
      | some ip, some a, some b => some ((ip : ℚ) + (10 * a + b : ℚ) / 100)
      | _, _, _ => none
  | _ => none

/-- Parse a string of the shape emitted by `%.2f` back into a rational:
an optional minus sign, the integral digits, a point, two fractional
digits, nothing else. -/
def parseF2 (s : String) : Option ℚ :=
  match s.data with
  | [] => none
  | c :: cs => if c = '-' then (parseAbs cs).map (fun q => -q) else parseAbs (c :: cs)

theorem digitChar_spec : ∀ d, d < 10 →
    (digitChar d).toNat = 48 + d ∧ (digitChar d).isDigit = true ∧
    ((digitChar d) != '.') = true ∧ ¬ digitChar d = '-' := by
  decide

theorem natDigsAux_spec : ∀ fuel n, n < fuel →
    natDigsAux fuel n ≠ [] ∧
    (∀ c ∈ natDigsAux fuel n,
      c.isDigit = true ∧ (c != '.') = true ∧ ¬ c = '-') ∧
    ∀ a : Nat, (natDigsAux fuel n).foldl (fun x c => 10 * x + (c.toNat - 48)) a =
      a * 10 ^ (natDigsAux fuel n).length + n := by
  intro fuel
  induction fuel with
  | zero => omega
  | succ fuel ih =>
      intro n hn
      by_cases h10 : n < 10
      · have hd := digitChar_spec n h10
        unfold natDigsAux
        rw [if_pos h10]
        refine ⟨by simp, ?_, ?_⟩
        · intro c hc
          rw [List.mem_singleton.mp hc]
          exact ⟨hd.2.1, hd.2.2.1, hd.2.2.2⟩
        · intro a
          simp only [List.foldl_cons, List.foldl_nil, List.length_singleton,
            pow_one, hd.1]
          omega
      · have hrec : n / 10 < fuel := by
          have := Nat.div_lt_self (by omega : 0 < n) (by omega : 1 < 10)
          omega
        obtain ⟨hne, hmem, hval⟩ := ih (n / 10) hrec
        have hd := digitChar_spec (n % 10) (Nat.mod_lt n (by omega))
        unfold natDigsAux
        rw [if_neg h10]
        refine ⟨by simp, ?_, ?_⟩
        · intro c hc
          rcases List.mem_append.mp hc with hc | hc
          · exact hmem c hc
          · rw [List.mem_singleton.mp hc]
            exact ⟨hd.2.1, hd.2.2.1, hd.2.2.2⟩
        · intro a
          rw [List.foldl_append, hval a, List.length_append,
            List.length_singleton, List.foldl_cons, List.foldl_nil, hd.1,
            pow_succ]
          have hdm : 10 * (n / 10) + n % 10 = n := Nat.div_add_mod n 10
          ring_nf
          omega

theorem natDigs_spec (n : Nat) :
    natDigs n ≠ [] ∧
    (∀ c ∈ natDigs n, c.isDigit = true ∧ (c != '.') = true ∧ ¬ c = '-') ∧
    (natDigs n).foldl (fun x c => 10 * x + (c.toNat - 48)) 0 = n := by
  obtain ⟨h1, h2, h3⟩ := natDigsAux_spec (n + 1) n (by omega)
  exact ⟨h1, h2, by rw [natDigs, h3 0]; omega⟩

theorem parseNatDigits_natDigs (n : Nat) : parseNatDigits (natDigs n) = some n := by
  obtain ⟨hne, hdig, hval⟩ := natDigs_spec n
  unfold parseNatDigits
  rw [if_pos ⟨hne, List.all_eq_true.mpr fun c hc => (hdig c hc).1⟩, hval]

theorem takeWhile_all_append (p : Char → Bool) (xs ys : List Char)
    (h : ∀ c ∈ xs, p c = true) :
    (xs ++ ys).takeWhile p = xs ++ ys.takeWhile p := by
  induction xs with
  | nil => simp
  | cons c cs ih =>
      have hc := h c (List.mem_cons_self c cs)
      have hrest := ih fun d hd => h d (List.mem_cons_of_mem c hd)
      simp [List.takeWhile_cons, hc, hrest]

theorem dropWhile_all_append (p : Char → Bool) (xs ys : List Char)
    (h : ∀ c ∈ xs, p c = true) :
    (xs ++ ys).dropWhile p = ys.dropWhile p := by
  induction xs with
  | nil => simp
  | cons c cs ih =>
      have hc := h c (List.mem_cons_self c cs)
      have hrest := ih fun d hd => h d (List.mem_cons_of_mem c hd)
      simp [List.dropWhile_cons, hc, hrest]

theorem parseAbs_shape (m : Nat) :
    parseAbs (natDigs (m / 100) ++ '.' :: frac2 (m % 100)) =
      some ((m : ℚ) / 100) := by
  obtain ⟨hne, hdig, hval⟩ := natDigs_spec (m / 100)
  have hmlt : m % 100 < 100 := Nat.mod_lt m (by omega)
  have hd1 := digitChar_spec ((m % 100) / 10) (by omega)
  have hd2 := digitChar_spec ((m % 100) % 10) (Nat.mod_lt _ (by omega))
  have hp : ∀ c ∈ natDigs (m / 100), (fun c => c != '.') c = true :=
    fun c hc => (hdig c hc).2.1
  have hdrop : (natDigs (m / 100) ++ '.' :: frac2 (m % 100)).dropWhile
      (fun c => c != '.') = '.' :: frac2 (m % 100) := by
    rw [dropWhile_all_append _ _ _ hp, List.dropWhile_cons]
    simp
  have htake : (natDigs (m / 100) ++ '.' :: frac2 (m % 100)).takeWhile
      (fun c => c != '.') = natDigs (m / 100) := by
    rw [takeWhile_all_append _ _ _ hp, List.takeWhile_cons]
    simp
  unfold parseAbs
  rw [hdrop, htake]
  unfold frac2
  simp only [parseNatDigits_natDigs, digit?, hd1.2.1, hd2.2.1, if_true,
    hd1.1, hd2.1]
  have e1 : 48 + (m % 100) / 10 - 48 = (m % 100) / 10 := by omega
  have e2 : 48 + (m % 100) % 10 - 48 = (m % 100) % 10 := by omega
  rw [e1, e2]
  congr 1
  have hNat : m = 100 * (m / 100) + (10 * (m % 100 / 10) + m % 100 % 10) := by
    omega
  have hQ : (m : ℚ) = 100 * ((m / 100 : Nat) : ℚ) +
      (10 * ((m % 100 / 10 : Nat) : ℚ) + ((m % 100 % 10 : Nat) : ℚ)) := by
    exact_mod_cast hNat
  rw [hQ]
  ring

theorem fmtF2_data (v : ℚ) :
    (fmtF2 v).data =
      (if round (v * 100) < 0 then ['-'] else []) ++
        (natDigs ((round (v * 100)).natAbs / 100) ++
          '.' :: frac2 ((round (v * 100)).natAbs % 100)) := by
  unfold fmtF2
  by_cases hn : round (v * 100) < 0 <;>
    simp [hn, String.data_append, List.append_assoc]

theorem parseF2_data_cons (s : String) (c : Char) (cs : List Char)
    (h : s.data = c :: cs) :
    parseF2 s =
      if c = '-' then (parseAbs cs).map (fun q => -q) else parseAbs (c :: cs) := by
  unfold parseF2
  rw [h]

theorem parseF2_fmtF2 (v : ℚ) :
    parseF2 (fmtF2 v) = some (((round (v * 100) : ℤ) : ℚ) / 100) := by
  by_cases hneg : round (v * 100) < 0
  · have hdata : (fmtF2 v).data =
        '-' :: (natDigs ((round (v * 100)).natAbs / 100) ++
          '.' :: frac2 ((round (v * 100)).natAbs % 100)) := by
      rw [fmtF2_data, if_pos hneg, List.singleton_append]
    rw [parseF2_data_cons _ _ _ hdata, if_pos rfl, parseAbs_shape,
      Option.map_some']
    congr 1
    have h1 : (((round (v * 100)).natAbs : Nat) : ℚ) =
        ((|round (v * 100)| : ℤ) : ℚ) := Int.cast_natAbs
    have h2 : (|round (v * 100)| : ℤ) = -round (v * 100) :=
      abs_of_nonpos (le_of_lt hneg)
    rw [h1, h2]
    push_cast
    ring
  · obtain ⟨c, cs, hcons⟩ :=
      List.exists_cons_of_ne_nil (natDigs_spec ((round (v * 100)).natAbs / 100)).1
    have hdata : (fmtF2 v).data =
        c :: (cs ++ '.' :: frac2 ((round (v * 100)).natAbs % 100)) := by
      rw [fmtF2_data, if_neg hneg, List.nil_append, hcons, List.cons_append]
    have hcdig : ¬ c = '-' := by
      have hcmem : c ∈ natDigs ((round (v * 100)).natAbs / 100) := by
        rw [hcons]
        exact List.mem_cons_self c cs
      exact ((natDigs_spec _).2.1 c hcmem).2.2
    rw [parseF2_data_cons _ _ _ hdata, if_neg hcdig, ← List.cons_append, ← hcons,
      parseAbs_shape]
    congr 1
    have h1 : (((round (v * 100)).natAbs : Nat) : ℚ) =
        ((|round (v * 100)| : ℤ) : ℚ) := Int.cast_natAbs
    have h2 : (|round (v * 100)| : ℤ) = round (v * 100) :=
      abs_of_nonneg (not_lt.mp hneg)
    rw [h1, h2]

/-- Helper for relating the comma loop of `post_acceleration_list` to
`String.intercalate`: the string of all remaining items, each preceded
by a comma. -/
def jsonTail : List ℚ → String
  | [] => ""
  | v :: vs => "," ++ fmtF2 v ++ jsonTail vs

theorem jsonItems_eq_tail (vs : List ℚ) :
    ∀ v : ℚ, jsonItems (v :: vs) = fmtF2 v ++ jsonTail vs := by
  induction vs with
  | nil => intro v; rw [jsonItems, jsonTail, String.append_empty]
  | cons w ws ih =>
      intro v
      rw [show jsonItems (v :: w :: ws) = fmtF2 v ++ "," ++ jsonItems (w :: ws)
          from rfl,
        ih w, jsonTail]
      rw [String.append_assoc, String.append_assoc]

theorem intercalate_go_comma (vs : List ℚ) :
    ∀ acc : String,
      String.intercalate.go acc "," (vs.map fmtF2) = acc ++ jsonTail vs := by
  induction vs with
  | nil => intro acc; rw [jsonTail, String.append_empty]; rfl
  | cons w ws ih =>
      intro acc
      rw [List.map_cons,
        show String.intercalate.go acc "," (fmtF2 w :: ws.map fmtF2) =
          String.intercalate.go (acc ++ "," ++ fmtF2 w) "," (ws.map fmtF2)
          from rfl,
        ih, jsonTail]
      rw [String.append_assoc, String.append_assoc, String.append_assoc]

theorem jsonItems_intercalate (vals : List ℚ) :
    jsonItems vals = String.intercalate "," (vals.map fmtF2) := by
  cases vals with
  | nil => rfl
  | cons v vs =>
      rw [jsonItems_eq_tail vs v, List.map_cons,
        show String.intercalate "," (fmtF2 v :: vs.map fmtF2) =
          String.intercalate.go (fmtF2 v) "," (vs.map fmtF2) from rfl,
        intercalate_go_comma vs (fmtF2 v)]

set_option maxRecDepth 8192 in
/-- C8 counterexample: the body the code builds has one space after the
colon (`sprintf(post_data, "...data...: [")`, main.c line 131), so it is
not byte-for-byte the claimed `data:[...]` form; at the concrete batch of
150 zeros the two strings differ. -/
theorem claim_C8_counterexample :
    post_body (List.replicate 150 (0 : ℚ)) ≠
      "\x7b\"data\":[" ++
        String.intercalate "," ((List.replicate 150 (0 : ℚ)).map fmtF2) ++
        "]\x7d" := by
  intro h
  have hlen := congrArg (fun s => s.data.length) h
  simp only [post_body, String.data_append, List.length_append] at hlen
  rw [← jsonItems_intercalate] at hlen
  simp only [List.length_cons, List.length_nil] at hlen
  omega

/-- C8 (amended): the serialized body is exactly the prologue
`data: [` (one space after the colon, unlike the claimed spaceless
form), the comma-separated values each formatted by `%.2f`, and the
closing brackets with nothing after them; and each serialized value
parses back to the input value rounded to two decimals, so the
round-trip holds value by value. -/
theorem claim_C8_serialization (vals : List ℚ) (h : vals.length = 150) :
    post_body vals =
      "\x7b\"data\": [" ++ String.intercalate "," (vals.map fmtF2) ++ "]\x7d" ∧
    (∀ v ∈ vals, parseF2 (fmtF2 v) = some (((round (v * 100) : ℤ) : ℚ) / 100)) ∧
    (post_body vals).data.getLast? = some '\x7d' := by
  refine ⟨?_, fun v _ => parseF2_fmtF2 v, ?_⟩
  · rw [post_body, jsonItems_intercalate]
  · have hdata : (post_body vals).data =
        ("\x7b\"data\": [" : String).data ++
          ((jsonItems vals).data ++ [']', '\x7d']) := by
      rw [post_body, String.data_append, String.data_append, List.append_assoc]
    rw [hdata, List.getLast?_append, List.getLast?_append]
    rfl

/-- C8 witness: the amended statement at the batch of 150 zeros. -/
theorem claim_C8_serialization_witness :
    post_body (List.replicate 150 (0 : ℚ)) =
      "\x7b\"data\": [" ++
        String.intercalate "," ((List.replicate 150 (0 : ℚ)).map fmtF2) ++
        "]\x7d" ∧
    (post_body (List.replicate 150 (0 : ℚ))).data.getLast? = some '\x7d' :=
  ⟨(claim_C8_serialization (List.replicate 150 (0 : ℚ)) (by simp)).1,
   (claim_C8_serialization (List.replicate 150 (0 : ℚ)) (by simp)).2.2⟩

end Makemit
